import Mathlib

/-!
Shallow embedding of `src/thread.cpp`: a producer/workers cyclic-barrier program.
Four worker threads repeatedly multiply two shared global matrices
(`globalA`, `globalB`, sizes driven by `currentN`); one generator thread waits
for all four workers, doubles the size, installs fresh matrices and releases
the workers, all synchronized by a single mutex `cv_mtx`, a single condition
variable `cv` and the counter `finishedCount`.

The development has two layers:

* a pure layer embedding `multiplyMatrices` (source lines 29-40) over
  `List (List Int)`, with every `vector` subscript tracked through `Option`
  so that an out-of-bounds access (undefined behaviour in C++) is `none`;
* a protocol layer: a small-step transition system over the shared state and
  the five thread program counters.  Each lock-protected critical section of
  the source is one atomic transition; `condition_variable::wait` with a
  predicate is modelled faithfully (check under lock, sleep, re-check on every
  wake), `notify_one` nondeterministically unblocks one of the current
  waiters, `notify_all` unblocks all of them, and spurious wakeups are extra
  always-allowed transitions for blocked threads.
-/

set_option maxHeartbeats 1000000

namespace ThreadCpp

/-! ## Matrices -/

abbrev Mat := List (List Int)

/-- n × n matrix of ones: the generator's fill for `newA` (source line 104)
and `main`'s initial fill for `globalA` (line 123). -/
def onesMat (n : Nat) : Mat := List.replicate n (List.replicate n 1)

/-- n × n matrix of twos: the generator's fill for `newB` (source line 105)
and `main`'s initial fill for `globalB` (line 124). -/
def twosMat (n : Nat) : Mat := List.replicate n (List.replicate n 2)

/-- n × n zero matrix: the worker's freshly allocated result buffer `C`
(source line 49). -/
def zeroMat (n : Nat) : Mat := List.replicate n (List.replicate n 0)

/-- The double subscript `M[i][j]` of the source, with both bound checks
explicit: `none` is the out-of-bounds (undefined-behaviour) branch. -/
def matGet (M : Mat) (i j : Nat) : Option Int := (M[i]?).bind fun r => r[j]?

/-- `M` is a square matrix of dimension `n` (the spec's invariant shape). -/
def SquareDim (M : Mat) (n : Nat) : Prop :=
  M.length = n ∧ ∀ r ∈ M, r.length = n

instance (M : Mat) (n : Nat) : Decidable (SquareDim M n) := by
  unfold SquareDim; infer_instance

/-- `M` has at least `N` rows, each of at least `N` columns: the precondition
under which `multiplyMatrices A B C N` performs no out-of-bounds access. -/
def HasDims (M : Mat) (N : Nat) : Prop :=
  N ≤ M.length ∧ ∀ r ∈ M, N ≤ r.length

instance (M : Mat) (N : Nat) : Decidable (HasDims M N) := by
  unfold HasDims; infer_instance

/-! ## multiplyMatrices (source lines 29-40)

The three nested loops are embedded as three structurally recursive
functions; each runs its index ascending exactly as the source does,
and the result buffer is threaded through like the mutated `C`. -/

/-- The innermost `k` loop (source lines 33-36): `sumLoop A B i j m` is the
value of `sum` after the iterations `k = 0, …, m-1` of
`sum += A[i][k] * B[k][j]`, or `none` if any subscript was out of bounds. -/
def sumLoop (A B : Mat) (i j : Nat) : Nat → Option Int
  | 0 => some 0
  | k + 1 =>
    (sumLoop A B i j k).bind fun s =>
      (matGet A i k).bind fun a =>
        (matGet B k j).bind fun b => some (s + a * b)

/-- The store `C[i][j] = sum` (source line 37), with both subscripts
bound-checked. -/
def setEntry (C : Mat) (i j : Nat) (v : Int) : Option Mat :=
  (C[i]?).bind fun r =>
    if j < r.length then some (C.set i (r.set j v)) else none

/-- The middle `j` loop (source lines 32-38): `colLoop A B N i m C` runs the
body for `j = 0, …, m-1` on row `i`, threading the result buffer. -/
def colLoop (A B : Mat) (N i : Nat) : Nat → Mat → Option Mat
  | 0, C => some C
  | j + 1, C =>
    (colLoop A B N i j C).bind fun C1 =>
      (sumLoop A B i j N).bind fun s => setEntry C1 i j s

/-- The outer `i` loop (source lines 31-39). -/
def rowLoop (A B : Mat) (N : Nat) : Nat → Mat → Option Mat
  | 0, C => some C
  | i + 1, C =>
    (rowLoop A B N i C).bind fun C1 => colLoop A B N i N C1

/-- `multiplyMatrices(A, B, C, N)` (source lines 29-40): the final contents of
`C`, or `none` if any vector subscript was out of bounds. -/
def multiplyMatrices (A B C : Mat) (N : Nat) : Option Mat :=
  rowLoop A B N N C

/-- The mathematical entry value the claim states: the sum over `k < N` of
`A[i][k] * B[k][j]` (out-of-bounds entries read as 0; under the dimension
precondition none occur). -/
def dotSpec (A B : Mat) (i j N : Nat) : Int :=
  (Finset.range N).sum fun k => (matGet A i k).getD 0 * (matGet B k j).getD 0

/-! ### In-bounds lemmas -/

lemma getElem?_replicate (a : α) :
    ∀ n m : Nat, (List.replicate n a)[m]? = if m < n then some a else none := by
  intro n
  induction n with
  | zero => intro m; simp
  | succ n ih =>
    intro m
    cases m with
    | zero => simp [List.replicate]
    | succ m =>
      simp only [List.replicate, List.getElem?_cons_succ, ih m]
      by_cases h : m < n
      · rw [if_pos h, if_pos (Nat.succ_lt_succ h)]
      · rw [if_neg h, if_neg (fun hc => h (Nat.lt_of_succ_lt_succ hc))]

lemma matGet_of_hasDims {M : Mat} {N i j : Nat} (h : HasDims M N)
    (hi : i < N) (hj : j < N) : ∃ v, matGet M i j = some v := by
  obtain ⟨hlen, hrow⟩ := h
  have hiM : i < M.length := lt_of_lt_of_le hi hlen
  have hMi : M[i]? = some (M.get ⟨i, hiM⟩) := List.getElem?_eq_getElem hiM
  have hmem : M.get ⟨i, hiM⟩ ∈ M := List.getElem_mem hiM
  have hjr : j < (M.get ⟨i, hiM⟩).length := lt_of_lt_of_le hj (hrow _ hmem)
  refine ⟨(M.get ⟨i, hiM⟩).get ⟨j, hjr⟩, ?_⟩
  rw [matGet, hMi, Option.some_bind]
  exact List.getElem?_eq_getElem hjr

lemma hasDims_onesMat (n : Nat) : HasDims (onesMat n) n := by
  constructor
  · simp [onesMat]
  · intro r hr
    rw [List.eq_of_mem_replicate hr]
    simp

lemma hasDims_twosMat (n : Nat) : HasDims (twosMat n) n := by
  constructor
  · simp [twosMat]
  · intro r hr
    rw [List.eq_of_mem_replicate hr]
    simp

lemma hasDims_zeroMat (n : Nat) : HasDims (zeroMat n) n := by
  constructor
  · simp [zeroMat]
  · intro r hr
    rw [List.eq_of_mem_replicate hr]
    simp

lemma squareDim_onesMat (n : Nat) : SquareDim (onesMat n) n := by
  constructor
  · simp [onesMat]
  · intro r hr
    rw [List.eq_of_mem_replicate hr]
    simp

lemma squareDim_twosMat (n : Nat) : SquareDim (twosMat n) n := by
  constructor
  · simp [twosMat]
  · intro r hr
    rw [List.eq_of_mem_replicate hr]
    simp

/-! ### Loop-invariant lemmas for multiplyMatrices -/

lemma sumLoop_spec {A B : Mat} {N i j : Nat} (hA : HasDims A N) (hB : HasDims B N)
    (hi : i < N) (hj : j < N) :
    ∀ m, m ≤ N → sumLoop A B i j m =
      some ((Finset.range m).sum fun k => (matGet A i k).getD 0 * (matGet B k j).getD 0) := by
  intro m
  induction m with
  | zero => intro _; simp [sumLoop]
  | succ m ih =>
    intro hm
    have hmN : m < N := hm
    obtain ⟨a, ha⟩ := matGet_of_hasDims hA hi hmN
    obtain ⟨b, hb⟩ := matGet_of_hasDims hB hmN hj
    rw [sumLoop, ih (Nat.le_of_lt hmN), ha, hb]
    simp [Finset.sum_range_succ, ha, hb]

lemma sumLoop_dotSpec {A B : Mat} {N i j : Nat} (hA : HasDims A N) (hB : HasDims B N)
    (hi : i < N) (hj : j < N) :
    sumLoop A B i j N = some (dotSpec A B i j N) :=
  sumLoop_spec hA hB hi hj N le_rfl

lemma setEntry_spec {C : Mat} {r : List Int} {i j : Nat} {v : Int}
    (hr : C[i]? = some r) (hj : j < r.length) :
    setEntry C i j v = some (C.set i (r.set j v)) := by
  rw [setEntry, hr, Option.some_bind, if_pos hj]

lemma colLoop_spec {A B : Mat} {N i : Nat} (hA : HasDims A N) (hB : HasDims B N)
    (hi : i < N) :
    ∀ m, m ≤ N → ∀ C r, C[i]? = some r → N ≤ r.length →
      ∃ D rD, colLoop A B N i m C = some D ∧
        D.length = C.length ∧
        D[i]? = some rD ∧ rD.length = r.length ∧
        (∀ i2, i2 ≠ i → D[i2]? = C[i2]?) ∧
        (∀ j, j < m → rD[j]? = some (dotSpec A B i j N)) ∧
        (∀ j, m ≤ j → rD[j]? = r[j]?) := by
  intro m
  induction m with
  | zero =>
    intro _ C r hr _
    exact ⟨C, r, rfl, rfl, hr, rfl, fun _ _ => rfl, fun j hj => absurd hj (Nat.not_lt_zero j),
      fun _ _ => rfl⟩
  | succ m ih =>
    intro hm C r hr hrN
    have hmN : m < N := hm
    obtain ⟨D1, rD1, hD1, hlen1, hrow1, hrlen1, hoth1, hdone1, hrest1⟩ :=
      ih (Nat.le_of_lt hmN) C r hr hrN
    have hmlen : m < rD1.length := lt_of_lt_of_le hmN (hrlen1 ▸ hrN)
    have hiD1 : i < D1.length := by
      have := List.getElem?_eq_some.mp hrow1
      exact this.1
    rw [colLoop, hD1, Option.some_bind, sumLoop_dotSpec hA hB hi hmN, Option.some_bind,
      setEntry_spec hrow1 hmlen]
    refine ⟨D1.set i (rD1.set m (dotSpec A B i m N)), rD1.set m (dotSpec A B i m N),
      rfl, ?_, ?_, ?_, ?_, ?_, ?_⟩
    · rw [List.length_set]; exact hlen1
    · exact List.getElem?_set_eq_of_lt _ hiD1
    · rw [List.length_set]; exact hrlen1
    · intro i2 h2
      rw [List.getElem?_set_ne (fun he => h2 he.symm)]
      exact hoth1 i2 h2
    · intro j hj
      rcases Nat.lt_succ_iff_lt_or_eq.mp hj with hj | hj
      · rw [List.getElem?_set_ne (Nat.ne_of_lt hj).symm]
        exact hdone1 j hj
      · subst hj
        exact List.getElem?_set_eq_of_lt _ hmlen
    · intro j hj
      have hne : m ≠ j := fun he => (Nat.not_succ_le_self m) (he ▸ hj)
      rw [List.getElem?_set_ne hne]
      exact hrest1 j (Nat.le_of_succ_le hj)

lemma rowLoop_spec {A B : Mat} {N : Nat} (hA : HasDims A N) (hB : HasDims B N) :
    ∀ m, m ≤ N → ∀ C, HasDims C N →
      ∃ D, rowLoop A B N m C = some D ∧
        D.length = C.length ∧
        (∀ i2 : Nat, (D[i2]?).map List.length = (C[i2]?).map List.length) ∧
        (∀ i, i < m → ∀ j, j < N → matGet D i j = some (dotSpec A B i j N)) ∧
        (∀ i, m ≤ i → D[i]? = C[i]?) := by
  intro m
  induction m with
  | zero =>
    intro _ C _
    exact ⟨C, rfl, rfl, fun _ => rfl, fun i hi => absurd hi (Nat.not_lt_zero i),
      fun _ _ => rfl⟩
  | succ m ih =>
    intro hm C hC
    have hmN : m < N := hm
    obtain ⟨D1, hD1, hlen1, hshape1, hdone1, hrest1⟩ := ih (Nat.le_of_lt hmN) C hC
    have hmC : m < C.length := lt_of_lt_of_le hmN hC.1
    have hCm : C[m]? = some (C.get ⟨m, hmC⟩) := List.getElem?_eq_getElem hmC
    have hCmlen : N ≤ (C.get ⟨m, hmC⟩).length := hC.2 _ (List.getElem_mem hmC)
    have hDm : D1[m]? = C[m]? := hrest1 m le_rfl
    have hDm2 : D1[m]? = some (C.get ⟨m, hmC⟩) := hDm.trans hCm
    obtain ⟨D, rD, hD, hlen, hrow, hrlen, hoth, hdotRow, _⟩ :=
      colLoop_spec hA hB hmN N le_rfl D1 (C.get ⟨m, hmC⟩) hDm2 hCmlen
    rw [rowLoop, hD1, Option.some_bind, hD]
    refine ⟨D, rfl, hlen.trans hlen1, ?_, ?_, ?_⟩
    · intro i2
      by_cases h2 : i2 = m
      · subst h2
        rw [hrow, hCm]
        simp [hrlen]
      · rw [hoth i2 h2]
        exact hshape1 i2
    · intro i hi j hj
      rcases Nat.lt_succ_iff_lt_or_eq.mp hi with hi | hi
      · have hne : i ≠ m := Nat.ne_of_lt hi
        have := hdone1 i hi j hj
        rw [matGet] at this ⊢
        rw [hoth i hne]
        exact this
      · subst hi
        rw [matGet, hrow, Option.some_bind]
        exact hdotRow j hj
    · intro i hi
      have hne : i ≠ m := fun he => (Nat.not_succ_le_self m) (he ▸ hi)
      rw [hoth i hne]
      exact hrest1 i (Nat.le_of_succ_le hi)

/-- Under the dimension preconditions every subscript is in bounds and the
result entries are the standard matrix product. -/
lemma multiplyMatrices_spec {A B C : Mat} {N : Nat}
    (hA : HasDims A N) (hB : HasDims B N) (hC : HasDims C N) :
    ∃ D, multiplyMatrices A B C N = some D ∧
      ∀ i, i < N → ∀ j, j < N → matGet D i j = some (dotSpec A B i j N) := by
  obtain ⟨D, hD, _, _, hdot, _⟩ := rowLoop_spec hA hB N le_rfl C hC
  exact ⟨D, hD, hdot⟩

/-- The generator's fill: A all ones, B all twos, so each product entry is
the length-N sum of 1 * 2, i.e. 2 * N. -/
lemma dotSpec_ones_twos {n i j : Nat} (hi : i < n) (hj : j < n) :
    dotSpec (onesMat n) (twosMat n) i j n = 2 * n := by
  have h1 : ∀ k, k < n → matGet (onesMat n) i k = some 1 := by
    intro k hk
    rw [matGet, onesMat, getElem?_replicate, if_pos hi, Option.some_bind,
      getElem?_replicate, if_pos hk]
  have h2 : ∀ k, k < n → matGet (twosMat n) k j = some 2 := by
    intro k hk
    rw [matGet, twosMat, getElem?_replicate, if_pos hk, Option.some_bind,
      getElem?_replicate, if_pos hj]
  rw [dotSpec]
  have hterm : ∀ k ∈ Finset.range n,
      (matGet (onesMat n) i k).getD 0 * (matGet (twosMat n) k j).getD 0 = 2 := by
    intro k hk
    rw [h1 k (Finset.mem_range.mp hk), h2 k (Finset.mem_range.mp hk)]
    rfl
  rw [Finset.sum_congr rfl hterm, Finset.sum_const, Finset.card_range]
  simp [nsmul_eq_mul, mul_comm]

/-! ## The synchronization protocol

One transition per lock-protected critical section (or per unlocked
statement) of the source.  Program counters:

worker (multiplicationThread, lines 43-79):
* readN    - about to read `currentN` into `N_local` (line 46);
* mul      - holds `N_local`; about to read `globalA`/`globalB` and run
             `multiplyMatrices` (lines 49-65);
* sig      - about to run the critical section of lines 68-77: increment
             `finishedCount`, `notify_one` if it reached 4, then enter the
             predicate wait on `finishedCount == 0` (the predicate is checked
             under the lock first, but it just incremented the counter, so
             the counter is nonzero and the worker always blocks);
* waiting  - blocked inside `cv.wait` (line 76);
* recheck  - unblocked (notified or spuriously woken), about to re-evaluate
             the predicate `finishedCount == 0` under the lock.

producer (matrixGeneratorThread, lines 82-119):
* await    - about to evaluate the predicate `finishedCount == 4` under the
             lock (line 87); proceeds at once if it already holds;
* pwaiting - blocked inside `cv.wait` (line 87);
* precheck - unblocked, about to re-evaluate `finishedCount == 4`;
* gen      - past the wait; about to run `currentN *= 2` (line 91) and
             allocate the new matrices (lines 104-105), all outside the lock;
* install  - about to run the critical section of lines 108-117: install the
             new matrices, reset `finishedCount` to 0 and `notify_all`.

The ghost fields `done` (which workers have incremented since the last
reset) and `rounds` (how many releases have happened) are history
variables: no transition's enabledness or effect on the real fields
depends on them. -/

inductive WPc where
  | readN
  | mul (nl : Nat)
  | sig
  | waiting
  | recheck
deriving DecidableEq

inductive PPc where
  | await
  | pwaiting
  | precheck
  | gen
  | install
deriving DecidableEq

/-- Builds a function on `Fin 4` from its four values (worker-indexed data). -/
def quad {α : Type} (a b c d : α) : Fin 4 → α
  | ⟨0, _⟩ => a
  | ⟨1, _⟩ => b
  | ⟨2, _⟩ => c
  | ⟨3, _⟩ => d

/-- Shared state of the program plus the five thread program counters and
the two ghost history fields. -/
structure ProgState where
  fin : Nat
  n : Nat
  A : Mat
  B : Mat
  wpc : Fin 4 → WPc
  ppc : PPc
  done : Fin 4 → Bool
  rounds : Nat
deriving DecidableEq

/-- Count of workers that have signalled since the last reset. -/
def countDone (d : Fin 4 → Bool) : Nat :=
  (d 0).toNat + (d 1).toNat + (d 2).toNat + (d 3).toNat

/-- State right after `main` initialized the globals (lines 121-124) and
spawned the four workers and the generator (lines 126-134). -/
def initState : ProgState :=
  { fin := 0, n := 10, A := onesMat 10, B := twosMat 10,
    wpc := quad .readN .readN .readN .readN, ppc := .await,
    done := quad false false false false, rounds := 0 }

/-- Small-step transition relation.  `notify_one` picks an arbitrary thread
among those blocked on the condition variable; `notify_all` unblocks all of
them; a blocked thread may also wake spuriously at any time. -/
inductive Step : Bool → ProgState → ProgState → Prop where
  /-- Worker `i` reads `currentN` into `N_local` (line 46, no lock). -/
  | readN (s : ProgState) (i : Fin 4) (h : s.wpc i = .readN) :
      Step false s { s with wpc := Function.update s.wpc i (.mul s.n) }
  /-- Worker `i` reads `globalA`/`globalB` and computes (lines 49-65, no
  lock); the values it reads are `s.A`, `s.B` of this state. -/
  | mulDone (s : ProgState) (i : Fin 4) (nl : Nat) (h : s.wpc i = .mul nl) :
      Step false s { s with wpc := Function.update s.wpc i .sig }
  /-- Worker `i` runs lines 68-76 with `finishedCount` not reaching 4:
  increment, no notification, block. -/
  | sigNo4 (s : ProgState) (i : Fin 4) (h : s.wpc i = .sig)
      (h4 : s.fin + 1 ≠ 4) :
      Step false s { s with
               fin := s.fin + 1,
               wpc := Function.update s.wpc i .waiting,
               done := Function.update s.done i true }
  /-- Worker `i` runs lines 68-76, the counter reaches 4, and `notify_one`
  unblocks the blocked worker `j`. -/
  | sig4Worker (s : ProgState) (i j : Fin 4) (h : s.wpc i = .sig)
      (h4 : s.fin + 1 = 4) (hj : s.wpc j = .waiting) :
      Step false s { s with
               fin := s.fin + 1,
               wpc := Function.update (Function.update s.wpc i .waiting) j .recheck,
               done := Function.update s.done i true }
  /-- Worker `i` runs lines 68-76, the counter reaches 4, and `notify_one`
  unblocks the producer. -/
  | sig4Prod (s : ProgState) (i : Fin 4) (h : s.wpc i = .sig)
      (h4 : s.fin + 1 = 4) (hp : s.ppc = .pwaiting) :
      Step false s { s with
               fin := s.fin + 1,
               wpc := Function.update s.wpc i .waiting,
               ppc := .precheck,
               done := Function.update s.done i true }
  /-- Worker `i` runs lines 68-76, the counter reaches 4, and nobody is
  blocked on the condition variable, so the notification is lost. -/
  | sig4None (s : ProgState) (i : Fin 4) (h : s.wpc i = .sig)
      (h4 : s.fin + 1 = 4) (hw : ∀ j, s.wpc j ≠ .waiting)
      (hp : s.ppc ≠ .pwaiting) :
      Step false s { s with
               fin := s.fin + 1,
               wpc := Function.update s.wpc i .waiting,
               done := Function.update s.done i true }
  /-- Unblocked worker `i` re-evaluates `finishedCount == 0` and it holds:
  the wait returns and the worker starts the next iteration (line 44). -/
  | wake0 (s : ProgState) (i : Fin 4) (h : s.wpc i = .recheck)
      (h0 : s.fin = 0) :
      Step false s { s with wpc := Function.update s.wpc i .readN }
  /-- Unblocked worker `i` re-evaluates `finishedCount == 0` and it fails:
  the worker blocks again. -/
  | wakePos (s : ProgState) (i : Fin 4) (h : s.wpc i = .recheck)
      (h0 : s.fin ≠ 0) :
      Step false s { s with wpc := Function.update s.wpc i .waiting }
  /-- Spurious wakeup of a blocked worker. -/
  | wSpurious (s : ProgState) (i : Fin 4) (h : s.wpc i = .waiting) :
      Step true s { s with wpc := Function.update s.wpc i .recheck }
  /-- Producer evaluates `finishedCount == 4` on entry to the wait (line 87)
  and it holds: the wait returns at once. -/
  | awaitYes (s : ProgState) (h : s.ppc = .await) (h4 : s.fin = 4) :
      Step false s { s with ppc := .gen }
  /-- Producer evaluates `finishedCount == 4` on entry to the wait and it
  fails: the producer blocks. -/
  | awaitNo (s : ProgState) (h : s.ppc = .await) (h4 : s.fin ≠ 4) :
      Step false s { s with ppc := .pwaiting }
  /-- Unblocked producer re-evaluates `finishedCount == 4` and it holds. -/
  | recheckYes (s : ProgState) (h : s.ppc = .precheck) (h4 : s.fin = 4) :
      Step false s { s with ppc := .gen }
  /-- Unblocked producer re-evaluates `finishedCount == 4` and it fails. -/
  | recheckNo (s : ProgState) (h : s.ppc = .precheck) (h4 : s.fin ≠ 4) :
      Step false s { s with ppc := .pwaiting }
  /-- Spurious wakeup of the blocked producer. -/
  | pSpurious (s : ProgState) (h : s.ppc = .pwaiting) :
      Step true s { s with ppc := .precheck }
  /-- Producer runs `currentN *= 2` (line 91) and builds the fresh matrices
  (lines 104-105), outside the lock. -/
  | pGen (s : ProgState) (h : s.ppc = .gen) :
      Step false s { s with n := 2 * s.n, ppc := .install }
  /-- Producer runs the critical section of lines 108-117: installs the
  fresh matrices, resets `finishedCount` to 0 and wakes every blocked
  worker (`notify_all`); ghost round counter advances. -/
  | pInstall (s : ProgState) (h : s.ppc = .install) :
      Step false s { s with
               A := onesMat s.n, B := twosMat s.n, fin := 0,
               wpc := fun j => if s.wpc j = .waiting then .recheck else s.wpc j,
               ppc := .await,
               done := quad false false false false,
               rounds := s.rounds + 1 }

/-- States reachable from the post-spawn initial state. -/
inductive Reachable : ProgState → Prop where
  | init : Reachable initState
  | step {b : Bool} {s t : ProgState} (hs : Reachable s) (st : Step b s t) :
      Reachable t

theorem Reachable.step_eq {b : Bool} {s t u : ProgState} (hs : Reachable s)
    (st : Step b s t) (he : t = u) : Reachable u := he ▸ hs.step st

/-! ### Counting lemmas for the ghost field -/

lemma toNat_le_one (b : Bool) : b.toNat ≤ 1 := by cases b <;> simp

lemma eq_true_of_toNat_eq_one {b : Bool} (h : b.toNat = 1) : b = true := by
  cases b
  · simp at h
  · rfl

lemma eq_false_of_toNat_eq_zero {b : Bool} (h : b.toNat = 0) : b = false := by
  cases b
  · rfl
  · simp at h

lemma countDone_le (d : Fin 4 → Bool) : countDone d ≤ 4 := by
  have e0 := toNat_le_one (d 0); have e1 := toNat_le_one (d 1)
  have e2 := toNat_le_one (d 2); have e3 := toNat_le_one (d 3)
  unfold countDone
  omega

lemma countDone_eq_four {d : Fin 4 → Bool} (h : countDone d = 4) :
    ∀ i, d i = true := by
  have e0 := toNat_le_one (d 0); have e1 := toNat_le_one (d 1)
  have e2 := toNat_le_one (d 2); have e3 := toNat_le_one (d 3)
  unfold countDone at h
  have h0 : d 0 = true := eq_true_of_toNat_eq_one (by omega)
  have h1 : d 1 = true := eq_true_of_toNat_eq_one (by omega)
  have h2 : d 2 = true := eq_true_of_toNat_eq_one (by omega)
  have h3 : d 3 = true := eq_true_of_toNat_eq_one (by omega)
  intro i
  fin_cases i
  exacts [h0, h1, h2, h3]

lemma countDone_eq_zero {d : Fin 4 → Bool} (h : countDone d = 0) :
    ∀ i, d i = false := by
  unfold countDone at h
  have h0 : d 0 = false := eq_false_of_toNat_eq_zero (by omega)
  have h1 : d 1 = false := eq_false_of_toNat_eq_zero (by omega)
  have h2 : d 2 = false := eq_false_of_toNat_eq_zero (by omega)
  have h3 : d 3 = false := eq_false_of_toNat_eq_zero (by omega)
  intro i
  fin_cases i
  exacts [h0, h1, h2, h3]

lemma fin4_cases (i : Fin 4) : i = 0 ∨ i = 1 ∨ i = 2 ∨ i = 3 := by
  fin_cases i <;> simp

lemma countDone_le_three {d : Fin 4 → Bool} {i : Fin 4} (h : d i = false) :
    countDone d ≤ 3 := by
  have e0 := toNat_le_one (d 0); have e1 := toNat_le_one (d 1)
  have e2 := toNat_le_one (d 2); have e3 := toNat_le_one (d 3)
  have hz : (d i).toNat = 0 := by rw [h]; rfl
  unfold countDone
  rcases fin4_cases i with rfl | rfl | rfl | rfl <;> omega

lemma countDone_update_true {d : Fin 4 → Bool} {i : Fin 4} (h : d i = false) :
    countDone (Function.update d i true) = countDone d + 1 := by
  rcases fin4_cases i with rfl | rfl | rfl | rfl <;>
    simp [countDone, Function.update_apply, h] <;> omega

/-! ### The inductive invariant -/

/-- The global inductive invariant of the protocol.  `finEq` says
`finishedCount` counts exactly the workers that signalled since the last
reset; `doneBlocked` says a signalled worker stays blocked until released;
`genAll` says the producer is past its wait only when the count is 4;
`sizeRound`/`sizeMid` track `currentN` against the ghost round counter
(`sizeMid` covers the window between `currentN *= 2` and the install);
`matA`/`matB` pin the shared matrices; `snap` says a worker's `N_local`
equals the current `currentN` while it is computing. -/
structure Inv (s : ProgState) : Prop where
  finEq : s.fin = countDone s.done
  doneBlocked : ∀ i, s.done i = true → s.wpc i = .waiting ∨ s.wpc i = .recheck
  genAll : s.ppc = .gen ∨ s.ppc = .install → s.fin = 4
  sizeRound : s.ppc ≠ .install → s.n = 10 * 2 ^ s.rounds
  sizeMid : s.ppc = .install → s.n = 10 * 2 ^ (s.rounds + 1)
  matA : s.A = onesMat (10 * 2 ^ s.rounds)
  matB : s.B = twosMat (10 * 2 ^ s.rounds)
  snap : ∀ i nl, s.wpc i = .mul nl → nl = s.n

lemma Inv.finLe {s : ProgState} (hi : Inv s) : s.fin ≤ 4 :=
  hi.finEq ▸ countDone_le s.done

lemma Inv.allDone {s : ProgState} (hi : Inv s) (h4 : s.fin = 4) :
    ∀ i, s.done i = true :=
  countDone_eq_four (by rw [← hi.finEq, h4])

lemma Inv.blockedOf4 {s : ProgState} (hi : Inv s) (h4 : s.fin = 4) :
    ∀ i, s.wpc i = .waiting ∨ s.wpc i = .recheck :=
  fun i => hi.doneBlocked i (hi.allDone h4 i)

lemma Inv.sigNotDone {s : ProgState} (hi : Inv s) {i : Fin 4}
    (h : s.wpc i = .sig) : s.done i = false := by
  by_contra hc
  rcases hi.doneBlocked i (Bool.of_not_eq_false hc) with hw | hw <;>
    rw [h] at hw <;> cases hw

lemma Inv.mulNotDone {s : ProgState} (hi : Inv s) {i : Fin 4} {nl : Nat}
    (h : s.wpc i = .mul nl) : s.done i = false := by
  by_contra hc
  rcases hi.doneBlocked i (Bool.of_not_eq_false hc) with hw | hw <;>
    rw [h] at hw <;> cases hw

lemma Inv.finLtOfSig {s : ProgState} (hi : Inv s) {i : Fin 4}
    (h : s.wpc i = .sig) : s.fin ≤ 3 :=
  hi.finEq ▸ countDone_le_three (hi.sigNotDone h)

lemma Inv.finLtOfMul {s : ProgState} (hi : Inv s) {i : Fin 4} {nl : Nat}
    (h : s.wpc i = .mul nl) : s.fin ≤ 3 :=
  hi.finEq ▸ countDone_le_three (hi.mulNotDone h)

lemma inv_init : Inv initState := by
  refine ⟨rfl, ?_, ?_, ?_, ?_, rfl, rfl, ?_⟩
  · intro i h
    fin_cases i <;> simp [initState, quad] at h
  · intro h
    rcases h with h | h <;> simp [initState] at h
  · intro _
    rfl
  · intro h
    simp [initState] at h
  · intro i nl h
    fin_cases i <;> simp [initState, quad] at h


theorem inv_step {b : Bool} {s t : ProgState} (hi : Inv s) (st : Step b s t) :
    Inv t := by
  cases st with
  | readN _ i h =>
    refine ⟨hi.finEq, ?_, hi.genAll, hi.sizeRound, hi.sizeMid, hi.matA, hi.matB, ?_⟩
    · intro j hd
      dsimp only at hd ⊢
      by_cases hij : j = i
      · subst hij
        rcases hi.doneBlocked j hd with hw | hw <;> rw [h] at hw <;> cases hw
      · rw [Function.update_noteq hij]
        exact hi.doneBlocked j hd
    · intro j nl hj
      dsimp only at hj ⊢
      by_cases hij : j = i
      · subst hij
        rw [Function.update_same] at hj
        injection hj with hnl
        exact hnl.symm
      · rw [Function.update_noteq hij] at hj
        exact hi.snap j nl hj
  | mulDone _ i nl h =>
    refine ⟨hi.finEq, ?_, hi.genAll, hi.sizeRound, hi.sizeMid, hi.matA, hi.matB, ?_⟩
    · intro j hd
      dsimp only at hd ⊢
      by_cases hij : j = i
      · subst hij
        rcases hi.doneBlocked j hd with hw | hw <;> rw [h] at hw <;> cases hw
      · rw [Function.update_noteq hij]
        exact hi.doneBlocked j hd
    · intro j nl2 hj
      dsimp only at hj ⊢
      by_cases hij : j = i
      · subst hij
        rw [Function.update_same] at hj
        exact WPc.noConfusion hj
      · rw [Function.update_noteq hij] at hj
        exact hi.snap j nl2 hj
  | sigNo4 _ i h h4 =>
    refine ⟨?_, ?_, ?_, hi.sizeRound, hi.sizeMid, hi.matA, hi.matB, ?_⟩
    · dsimp only
      rw [countDone_update_true (hi.sigNotDone h), ← hi.finEq]
    · intro j hd
      dsimp only at hd ⊢
      by_cases hij : j = i
      · subst hij
        rw [Function.update_same]
        exact Or.inl rfl
      · rw [Function.update_noteq hij] at hd ⊢
        exact hi.doneBlocked j hd
    · intro hp
      dsimp only at hp ⊢
      have h3 := hi.finLtOfSig h
      have h44 := hi.genAll hp
      omega
    · intro j nl hj
      dsimp only at hj ⊢
      by_cases hij : j = i
      · subst hij
        rw [Function.update_same] at hj
        exact WPc.noConfusion hj
      · rw [Function.update_noteq hij] at hj
        exact hi.snap j nl hj
  | sig4Worker _ i j0 h h4 hj0 =>
    refine ⟨?_, ?_, fun _ => h4, hi.sizeRound, hi.sizeMid, hi.matA, hi.matB, ?_⟩
    · dsimp only
      rw [countDone_update_true (hi.sigNotDone h), ← hi.finEq]
    · intro j hd
      dsimp only at hd ⊢
      by_cases hjj : j = j0
      · subst hjj
        rw [Function.update_same]
        exact Or.inr rfl
      · rw [Function.update_noteq hjj]
        by_cases hij : j = i
        · subst hij
          rw [Function.update_same]
          exact Or.inl rfl
        · rw [Function.update_noteq hij]
          rw [Function.update_noteq hij] at hd
          exact hi.doneBlocked j hd
    · intro j nl hj
      dsimp only at hj ⊢
      by_cases hjj : j = j0
      · subst hjj
        rw [Function.update_same] at hj
        exact WPc.noConfusion hj
      · rw [Function.update_noteq hjj] at hj
        by_cases hij : j = i
        · subst hij
          rw [Function.update_same] at hj
          exact WPc.noConfusion hj
        · rw [Function.update_noteq hij] at hj
          exact hi.snap j nl hj
  | sig4Prod _ i h h4 hp =>
    refine ⟨?_, ?_, fun _ => h4, ?_, ?_, hi.matA, hi.matB, ?_⟩
    · dsimp only
      rw [countDone_update_true (hi.sigNotDone h), ← hi.finEq]
    · intro j hd
      dsimp only at hd ⊢
      by_cases hij : j = i
      · subst hij
        rw [Function.update_same]
        exact Or.inl rfl
      · rw [Function.update_noteq hij] at hd ⊢
        exact hi.doneBlocked j hd
    · intro _
      exact hi.sizeRound (by simp [hp])
    · intro hc
      exact PPc.noConfusion hc
    · intro j nl hj
      dsimp only at hj ⊢
      by_cases hij : j = i
      · subst hij
        rw [Function.update_same] at hj
        exact WPc.noConfusion hj
      · rw [Function.update_noteq hij] at hj
        exact hi.snap j nl hj
  | sig4None _ i h h4 hw hp =>
    refine ⟨?_, ?_, fun _ => h4, hi.sizeRound, hi.sizeMid, hi.matA, hi.matB, ?_⟩
    · dsimp only
      rw [countDone_update_true (hi.sigNotDone h), ← hi.finEq]
    · intro j hd
      dsimp only at hd ⊢
      by_cases hij : j = i
      · subst hij
        rw [Function.update_same]
        exact Or.inl rfl
      · rw [Function.update_noteq hij] at hd ⊢
        exact hi.doneBlocked j hd
    · intro j nl hj
      dsimp only at hj ⊢
      by_cases hij : j = i
      · subst hij
        rw [Function.update_same] at hj
        exact WPc.noConfusion hj
      · rw [Function.update_noteq hij] at hj
        exact hi.snap j nl hj
  | wake0 _ i h h0 =>
    have hz : ∀ j, s.done j = false :=
      countDone_eq_zero (by rw [← hi.finEq]; exact h0)
    refine ⟨hi.finEq, ?_, ?_, hi.sizeRound, hi.sizeMid, hi.matA, hi.matB, ?_⟩
    · intro j hd
      dsimp only at hd
      rw [hz j] at hd
      cases hd
    · intro hp
      have h44 := hi.genAll hp
      dsimp only
      omega
    · intro j nl hj
      dsimp only at hj ⊢
      by_cases hij : j = i
      · subst hij
        rw [Function.update_same] at hj
        exact WPc.noConfusion hj
      · rw [Function.update_noteq hij] at hj
        exact hi.snap j nl hj
  | wakePos _ i h h0 =>
    refine ⟨hi.finEq, ?_, hi.genAll, hi.sizeRound, hi.sizeMid, hi.matA, hi.matB, ?_⟩
    · intro j hd
      dsimp only at hd ⊢
      by_cases hij : j = i
      · subst hij
        rw [Function.update_same]
        exact Or.inl rfl
      · rw [Function.update_noteq hij]
        exact hi.doneBlocked j hd
    · intro j nl hj
      dsimp only at hj ⊢
      by_cases hij : j = i
      · subst hij
        rw [Function.update_same] at hj
        exact WPc.noConfusion hj
      · rw [Function.update_noteq hij] at hj
        exact hi.snap j nl hj
  | wSpurious _ i h =>
    refine ⟨hi.finEq, ?_, hi.genAll, hi.sizeRound, hi.sizeMid, hi.matA, hi.matB, ?_⟩
    · intro j hd
      dsimp only at hd ⊢
      by_cases hij : j = i
      · subst hij
        rw [Function.update_same]
        exact Or.inr rfl
      · rw [Function.update_noteq hij]
        exact hi.doneBlocked j hd
    · intro j nl hj
      dsimp only at hj ⊢
      by_cases hij : j = i
      · subst hij
        rw [Function.update_same] at hj
        exact WPc.noConfusion hj
      · rw [Function.update_noteq hij] at hj
        exact hi.snap j nl hj
  | awaitYes _ h h4 =>
    refine ⟨hi.finEq, hi.doneBlocked, fun _ => h4, ?_, ?_, hi.matA, hi.matB, hi.snap⟩
    · intro _
      exact hi.sizeRound (by simp [h])
    · intro hc
      exact PPc.noConfusion hc
  | awaitNo _ h h4 =>
    refine ⟨hi.finEq, hi.doneBlocked, ?_, ?_, ?_, hi.matA, hi.matB, hi.snap⟩
    · intro hc
      rcases hc with hc | hc <;> exact PPc.noConfusion hc
    · intro _
      exact hi.sizeRound (by simp [h])
    · intro hc
      exact PPc.noConfusion hc
  | recheckYes _ h h4 =>
    refine ⟨hi.finEq, hi.doneBlocked, fun _ => h4, ?_, ?_, hi.matA, hi.matB, hi.snap⟩
    · intro _
      exact hi.sizeRound (by simp [h])
    · intro hc
      exact PPc.noConfusion hc
  | recheckNo _ h h4 =>
    refine ⟨hi.finEq, hi.doneBlocked, ?_, ?_, ?_, hi.matA, hi.matB, hi.snap⟩
    · intro hc
      rcases hc with hc | hc <;> exact PPc.noConfusion hc
    · intro _
      exact hi.sizeRound (by simp [h])
    · intro hc
      exact PPc.noConfusion hc
  | pSpurious _ h =>
    refine ⟨hi.finEq, hi.doneBlocked, ?_, ?_, ?_, hi.matA, hi.matB, hi.snap⟩
    · intro hc
      rcases hc with hc | hc <;> exact PPc.noConfusion hc
    · intro _
      exact hi.sizeRound (by simp [h])
    · intro hc
      exact PPc.noConfusion hc
  | pGen _ h =>
    have h44 : s.fin = 4 := hi.genAll (Or.inl h)
    refine ⟨hi.finEq, hi.doneBlocked, fun _ => h44, ?_, ?_, hi.matA, hi.matB, ?_⟩
    · intro hc
      exact absurd rfl hc
    · intro _
      dsimp only
      rw [hi.sizeRound (by simp [h]), pow_succ]
      ring
    · intro j nl hj
      dsimp only at hj
      rcases hi.blockedOf4 h44 j with hw | hw <;> rw [hj] at hw <;>
        exact WPc.noConfusion hw
  | pInstall _ h =>
    refine ⟨rfl, ?_, ?_, ?_, ?_, ?_, ?_, ?_⟩
    · intro j hd
      dsimp only at hd
      exact absurd hd (by rcases fin4_cases j with rfl | rfl | rfl | rfl <;> decide)
    · intro hc
      rcases hc with hc | hc <;> exact PPc.noConfusion hc
    · intro _
      dsimp only
      exact hi.sizeMid h
    · intro hc
      exact PPc.noConfusion hc
    · dsimp only
      rw [hi.sizeMid h]
    · dsimp only
      rw [hi.sizeMid h]
    · intro j nl hj
      dsimp only at hj ⊢
      by_cases hw : s.wpc j = WPc.waiting
      · rw [if_pos hw] at hj
        exact WPc.noConfusion hj
      · rw [if_neg hw] at hj
        exact hi.snap j nl hj

/-- Every reachable state satisfies the inductive invariant. -/
theorem reachable_inv {s : ProgState} (hr : Reachable s) : Inv s := by
  induction hr with
  | init => exact inv_init
  | step _ st ih => exact inv_step ih st


/-! ### Evaluation lemmas for worker-indexed quadruples -/

lemma ProgState.ext2 {s t : ProgState} (h1 : s.fin = t.fin) (h2 : s.n = t.n)
    (h3 : s.A = t.A) (h4 : s.B = t.B) (h5 : s.wpc = t.wpc) (h6 : s.ppc = t.ppc)
    (h7 : s.done = t.done) (h8 : s.rounds = t.rounds) : s = t := by
  cases s
  cases t
  dsimp only at h1 h2 h3 h4 h5 h6 h7 h8
  subst h1 h2 h3 h4 h5 h6 h7 h8
  rfl

lemma update_quad0 {α : Type} (a b c d v : α) :
    Function.update (quad a b c d) 0 v = quad v b c d := by
  funext j
  rcases fin4_cases j with rfl | rfl | rfl | rfl
  · rw [Function.update_same]
    rfl
  · rw [Function.update_noteq (by decide)]
    rfl
  · rw [Function.update_noteq (by decide)]
    rfl
  · rw [Function.update_noteq (by decide)]
    rfl

lemma update_quad1 {α : Type} (a b c d v : α) :
    Function.update (quad a b c d) 1 v = quad a v c d := by
  funext j
  rcases fin4_cases j with rfl | rfl | rfl | rfl
  · rw [Function.update_noteq (by decide)]
    rfl
  · rw [Function.update_same]
    rfl
  · rw [Function.update_noteq (by decide)]
    rfl
  · rw [Function.update_noteq (by decide)]
    rfl

lemma update_quad2 {α : Type} (a b c d v : α) :
    Function.update (quad a b c d) 2 v = quad a b v d := by
  funext j
  rcases fin4_cases j with rfl | rfl | rfl | rfl
  · rw [Function.update_noteq (by decide)]
    rfl
  · rw [Function.update_noteq (by decide)]
    rfl
  · rw [Function.update_same]
    rfl
  · rw [Function.update_noteq (by decide)]
    rfl

lemma update_quad3 {α : Type} (a b c d v : α) :
    Function.update (quad a b c d) 3 v = quad a b c v := by
  funext j
  rcases fin4_cases j with rfl | rfl | rfl | rfl
  · rw [Function.update_noteq (by decide)]
    rfl
  · rw [Function.update_noteq (by decide)]
    rfl
  · rw [Function.update_noteq (by decide)]
    rfl
  · rw [Function.update_same]
    rfl

lemma wake_quad (a b c d : WPc) :
    (fun j => if quad a b c d j = WPc.waiting then WPc.recheck else quad a b c d j)
      = quad (if a = WPc.waiting then WPc.recheck else a)
             (if b = WPc.waiting then WPc.recheck else b)
             (if c = WPc.waiting then WPc.recheck else c)
             (if d = WPc.waiting then WPc.recheck else d) := by
  funext j
  rcases fin4_cases j with rfl | rfl | rfl | rfl <;> rfl

/-! ### Canonical states along the two schedules -/

/-- Start-of-round state after `k` releases: every worker at the top of its
loop, producer about to evaluate its wait predicate, counter 0. -/
def roundStart (k : Nat) : ProgState :=
  { fin := 0, n := 10 * 2 ^ k, A := onesMat (10 * 2 ^ k), B := twosMat (10 * 2 ^ k),
    wpc := quad .readN .readN .readN .readN, ppc := .await,
    done := quad false false false false, rounds := k }

/-- Worker 0 has read `currentN` and is about to multiply; the others have
not started yet. -/
def sW0mul (k : Nat) : ProgState :=
  { fin := 0, n := 10 * 2 ^ k, A := onesMat (10 * 2 ^ k), B := twosMat (10 * 2 ^ k),
    wpc := quad (.mul (10 * 2 ^ k)) .readN .readN .readN, ppc := .await,
    done := quad false false false false, rounds := k }

/-- Workers 0-2 have signalled and block; worker 3 is about to run the
signal section; the producer is blocked. -/
def preBarrier (k : Nat) : ProgState :=
  { fin := 3, n := 10 * 2 ^ k, A := onesMat (10 * 2 ^ k), B := twosMat (10 * 2 ^ k),
    wpc := quad .waiting .waiting .waiting .sig, ppc := .pwaiting,
    done := quad true true true false, rounds := k }

/-- All four workers signalled and block; the producer is past its wait and
about to run `currentN *= 2`. -/
def sGen (k : Nat) : ProgState :=
  { fin := 4, n := 10 * 2 ^ k, A := onesMat (10 * 2 ^ k), B := twosMat (10 * 2 ^ k),
    wpc := quad .waiting .waiting .waiting .waiting, ppc := .gen,
    done := quad true true true true, rounds := k }

/-- The mid-generation window: `currentN` is already doubled but the shared
matrices are still the previous round's. -/
def sMid (k : Nat) : ProgState :=
  { fin := 4, n := 2 * (10 * 2 ^ k), A := onesMat (10 * 2 ^ k), B := twosMat (10 * 2 ^ k),
    wpc := quad .waiting .waiting .waiting .waiting, ppc := .install,
    done := quad true true true true, rounds := k }

/-- The lost-wakeup deadlock: the counter is 4, every worker is blocked on
`finishedCount == 0`, the producer is blocked on `finishedCount == 4`, and
the fourth worker's single notification has been consumed by worker 0. -/
def deadState (k : Nat) : ProgState :=
  { fin := 4, n := 10 * 2 ^ k, A := onesMat (10 * 2 ^ k), B := twosMat (10 * 2 ^ k),
    wpc := quad .waiting .waiting .waiting .waiting, ppc := .pwaiting,
    done := quad true true true true, rounds := k }

lemma roundStart_zero : roundStart 0 = initState := by decide

/-! ### Reachability of the canonical states -/

lemma reach_sW0mul (k : Nat) (h : Reachable (roundStart k)) :
    Reachable (sW0mul k) :=
  h.step_eq (Step.readN _ 0 rfl)
    (ProgState.ext2 rfl rfl rfl rfl
      (by simp [roundStart, sW0mul, update_quad0]) rfl rfl rfl)

lemma reach_preBarrier (k : Nat) (h : Reachable (roundStart k)) :
    Reachable (preBarrier k) := by
  have h1 : Reachable { roundStart k with ppc := .pwaiting } :=
    h.step (Step.awaitNo _ rfl (by simp [roundStart]))
  have h2 := h1.step_eq (Step.readN _ 0 rfl)
    (ProgState.ext2 (t :=
      { roundStart k with
        ppc := .pwaiting,
        wpc := quad (.mul (10 * 2 ^ k)) .readN .readN .readN })
      rfl rfl rfl rfl (by simp [roundStart, update_quad0]) rfl rfl rfl)
  have h3 := h2.step_eq (Step.mulDone _ 0 _ rfl)
    (ProgState.ext2 (t :=
      { roundStart k with
        ppc := .pwaiting,
        wpc := quad .sig .readN .readN .readN })
      rfl rfl rfl rfl (by simp [roundStart, update_quad0]) rfl rfl rfl)
  have h4 := h3.step_eq (Step.readN _ 1 rfl)
    (ProgState.ext2 (t :=
      { roundStart k with
        ppc := .pwaiting,
        wpc := quad .sig (.mul (10 * 2 ^ k)) .readN .readN })
      rfl rfl rfl rfl (by simp [roundStart, update_quad1]) rfl rfl rfl)
  have h5 := h4.step_eq (Step.mulDone _ 1 _ rfl)
    (ProgState.ext2 (t :=
      { roundStart k with
        ppc := .pwaiting,
        wpc := quad .sig .sig .readN .readN })
      rfl rfl rfl rfl (by simp [roundStart, update_quad1]) rfl rfl rfl)
  have h6 := h5.step_eq (Step.readN _ 2 rfl)
    (ProgState.ext2 (t :=
      { roundStart k with
        ppc := .pwaiting,
        wpc := quad .sig .sig (.mul (10 * 2 ^ k)) .readN })
      rfl rfl rfl rfl (by simp [roundStart, update_quad2]) rfl rfl rfl)
  have h7 := h6.step_eq (Step.mulDone _ 2 _ rfl)
    (ProgState.ext2 (t :=
      { roundStart k with
        ppc := .pwaiting,
        wpc := quad .sig .sig .sig .readN })
      rfl rfl rfl rfl (by simp [roundStart, update_quad2]) rfl rfl rfl)
  have h8 := h7.step_eq (Step.readN _ 3 rfl)
    (ProgState.ext2 (t :=
      { roundStart k with
        ppc := .pwaiting,
        wpc := quad .sig .sig .sig (.mul (10 * 2 ^ k)) })
      rfl rfl rfl rfl (by simp [roundStart, update_quad3]) rfl rfl rfl)
  have h9 := h8.step_eq (Step.mulDone _ 3 _ rfl)
    (ProgState.ext2 (t :=
      { roundStart k with
        ppc := .pwaiting,
        wpc := quad .sig .sig .sig .sig })
      rfl rfl rfl rfl (by simp [roundStart, update_quad3]) rfl rfl rfl)
  have h10 := h9.step_eq (Step.sigNo4 _ 0 rfl (by simp [roundStart]))
    (ProgState.ext2 (t :=
      { roundStart k with
        ppc := .pwaiting, fin := 1,
        wpc := quad .waiting .sig .sig .sig,
        done := quad true false false false })
      rfl rfl rfl rfl (by simp [roundStart, update_quad0])
      rfl (by simp [roundStart, update_quad0]) rfl)
  have h11 := h10.step_eq (Step.sigNo4 _ 1 rfl (by simp [roundStart]))
    (ProgState.ext2 (t :=
      { roundStart k with
        ppc := .pwaiting, fin := 2,
        wpc := quad .waiting .waiting .sig .sig,
        done := quad true true false false })
      rfl rfl rfl rfl (by simp [roundStart, update_quad1])
      rfl (by simp [roundStart, update_quad1]) rfl)
  have h12 := h11.step_eq (Step.sigNo4 _ 2 rfl (by simp [roundStart]))
    (ProgState.ext2 (t := preBarrier k)
      rfl rfl rfl rfl (by simp [roundStart, preBarrier, update_quad2])
      rfl (by simp [roundStart, preBarrier, update_quad2]) rfl)
  exact h12

lemma reach_sGen (k : Nat) (h : Reachable (roundStart k)) :
    Reachable (sGen k) := by
  have h13 := (reach_preBarrier k h).step_eq (Step.sig4Prod _ 3 rfl rfl rfl)
    (ProgState.ext2 (t :=
      { preBarrier k with
        fin := 4, ppc := .precheck,
        wpc := quad .waiting .waiting .waiting .waiting,
        done := quad true true true true })
      rfl rfl rfl rfl (by simp [preBarrier, update_quad3])
      rfl (by simp [preBarrier, update_quad3]) rfl)
  exact h13.step_eq (Step.recheckYes _ rfl rfl)
    (ProgState.ext2 (t := sGen k) rfl rfl rfl rfl
      (by simp [preBarrier, sGen]) rfl (by simp [preBarrier, sGen]) rfl)

lemma reach_sMid (k : Nat) (h : Reachable (roundStart k)) :
    Reachable (sMid k) :=
  (reach_sGen k h).step_eq (Step.pGen _ rfl)
    (ProgState.ext2 (t := sMid k) rfl rfl rfl rfl
      (by simp [sGen, sMid]) rfl (by simp [sGen, sMid]) rfl)

lemma reach_roundStart_succ (k : Nat) (h : Reachable (roundStart k)) :
    Reachable (roundStart (k + 1)) := by
  have hpow : 2 * (10 * 2 ^ k) = 10 * 2 ^ (k + 1) := by ring
  have h16 := (reach_sMid k h).step_eq (Step.pInstall _ rfl)
    (ProgState.ext2 (t :=
      { roundStart (k + 1) with
        wpc := quad .recheck .recheck .recheck .recheck })
      rfl (by simp [sMid, roundStart, hpow])
      (by simp [sMid, roundStart, hpow]) (by simp [sMid, roundStart, hpow])
      (by rw [show (sMid k).wpc = quad .waiting .waiting .waiting .waiting from rfl,
              wake_quad]
          simp)
      rfl rfl (by simp [sMid, roundStart]))
  have h17 := h16.step_eq (Step.wake0 _ 0 rfl rfl)
    (ProgState.ext2 (t :=
      { roundStart (k + 1) with
        wpc := quad .readN .recheck .recheck .recheck })
      rfl rfl rfl rfl (by simp [roundStart, update_quad0]) rfl rfl rfl)
  have h18 := h17.step_eq (Step.wake0 _ 1 rfl rfl)
    (ProgState.ext2 (t :=
      { roundStart (k + 1) with
        wpc := quad .readN .readN .recheck .recheck })
      rfl rfl rfl rfl (by simp [roundStart, update_quad1]) rfl rfl rfl)
  have h19 := h18.step_eq (Step.wake0 _ 2 rfl rfl)
    (ProgState.ext2 (t :=
      { roundStart (k + 1) with
        wpc := quad .readN .readN .readN .recheck })
      rfl rfl rfl rfl (by simp [roundStart, update_quad2]) rfl rfl rfl)
  exact h19.step_eq (Step.wake0 _ 3 rfl rfl)
    (ProgState.ext2 (t := roundStart (k + 1))
      rfl rfl rfl rfl (by simp [roundStart, update_quad3]) rfl rfl rfl)

/-- Every start-of-round state is reachable: the good schedule makes
unboundedly many rounds. -/
lemma reach_roundStart (k : Nat) : Reachable (roundStart k) := by
  induction k with
  | zero => exact roundStart_zero ▸ Reachable.init
  | succ k ih => exact reach_roundStart_succ k ih

/-- The bad schedule: from `preBarrier`, the fourth worker signals but its
`notify_one` is consumed by blocked worker 0, which re-checks
`finishedCount == 0`, fails, and blocks again; the producer sleeps forever. -/
lemma reach_deadState (k : Nat) (h : Reachable (roundStart k)) :
    Reachable (deadState k) := by
  have h13 := (reach_preBarrier k h).step_eq (Step.sig4Worker _ 3 0 rfl rfl rfl)
    (ProgState.ext2 (t :=
      { preBarrier k with
        fin := 4,
        wpc := quad .recheck .waiting .waiting .waiting,
        done := quad true true true true })
      rfl rfl rfl rfl
      (by simp [preBarrier, update_quad3, update_quad0])
      rfl (by simp [preBarrier, update_quad3]) rfl)
  exact h13.step_eq (Step.wakePos _ 0 rfl (by simp))
    (ProgState.ext2 (t := deadState k) rfl rfl rfl rfl
      (by simp [preBarrier, deadState, update_quad0]) rfl
      (by simp [preBarrier, deadState]) rfl)


/-! ## Shared corollaries of the invariant -/

/-- While worker `i` is computing on snapshot size `nl`, the shared size
still equals `nl` and the shared matrices are the fill of dimension `s.n`. -/
lemma mul_snapshot_props {s : ProgState} (hr : Reachable s) {i : Fin 4} {nl : Nat}
    (h : s.wpc i = WPc.mul nl) :
    nl = s.n ∧ s.A = onesMat s.n ∧ s.B = twosMat s.n := by
  have hi := reachable_inv hr
  have hnl := hi.snap i nl h
  have hle := hi.finLtOfMul h
  have hninst : s.ppc ≠ PPc.install := by
    intro hp
    have := hi.genAll (Or.inr hp)
    omega
  have hsz := hi.sizeRound hninst
  exact ⟨hnl, by rw [hi.matA, hsz], by rw [hi.matB, hsz]⟩

/-- A state from which no transition other than a spurious wakeup is
enabled: every thread is blocked and, absent spurious wakeups (which the
platform is not required to ever produce), blocked forever. -/
def Stuck (s : ProgState) : Prop := ∀ u, ¬ Step false s u

/-- Boolean form of the square-dimension invariant, for concrete evaluation. -/
def squareDimB (M : Mat) (n : Nat) : Bool :=
  (M.length == n) && M.all fun r => r.length == n

/-! ## Startup (claim C2) -/

/-- Startup configuration constants of the source: initial size
(`currentN = 10`, line 19), worker-thread count (`numMultiplicationThreads
= 4`, line 127), and the participant count the barrier waits for (the
literal `4` in the predicates of lines 72 and 87). -/
structure StartupConfig where
  initialN : Nat
  numWorkers : Nat
  participants : Nat
deriving DecidableEq

/-- The configuration invariant of the spec: the participant count the
barrier waits for equals the number of workers started, and the initial
size is positive. -/
def configOK (c : StartupConfig) : Bool :=
  (c.numWorkers == c.participants) && (c.initialN != 0)

/-- Constants as hard-coded in the source. -/
def sourceConfig : StartupConfig := ⟨10, 4, 4⟩

/-- The startup sequence of `main` (source lines 121-134), with the three
hard-coded constants abstracted as the configuration.  The source body is
straight-line code: initialize `globalA` and `globalB` to the fills of the
initial size, then spawn the four workers and the generator.  It contains
no assertion, no validation and no abort path of any kind, so the embedding
returns the spawned state (initial matrices plus the count of spawned
threads) unconditionally; the `Except.error` branch exists only to be able
to state that an abort never happens. -/
def mainStartup (c : StartupConfig) : Except String (Mat × Mat × Nat) :=
  Except.ok (onesMat c.initialN, twosMat c.initialN, c.numWorkers + 1)

/-! ## Claim theorems -/

/-- C1: refuted as stated (the code contradicts its own comment "notify the
generator").  The fourth worker's `notify_one` goes to a condition variable
shared with the workers, so it can unblock a worker instead of the
producer; the worker re-checks `finishedCount == 0`, fails, and blocks
again, consuming the only notification.  The resulting reachable state has
`finishedCount = 4` with the producer blocked and admits no transition
except spurious wakeups, which need never occur: `awaitAllComplete` hangs
forever although the count reached `participantCount`. -/
theorem awaitAllComplete_can_hang :
    Reachable (deadState 0) ∧ (deadState 0).fin = 4 ∧
      (deadState 0).ppc = PPc.pwaiting ∧
      (∀ i, (deadState 0).wpc i = WPc.waiting) ∧ Stuck (deadState 0) := by
  refine ⟨reach_deadState 0 (reach_roundStart 0), rfl, rfl, ?_, ?_⟩
  · intro i
    rcases fin4_cases i with rfl | rfl | rfl | rfl <;> rfl
  · intro u st
    cases st with
    | readN _ i h =>
      rcases fin4_cases i with rfl | rfl | rfl | rfl <;> exact WPc.noConfusion h
    | mulDone _ i nl h =>
      rcases fin4_cases i with rfl | rfl | rfl | rfl <;> exact WPc.noConfusion h
    | sigNo4 _ i h h4 =>
      rcases fin4_cases i with rfl | rfl | rfl | rfl <;> exact WPc.noConfusion h
    | sig4Worker _ i j0 h h4 hj0 =>
      rcases fin4_cases i with rfl | rfl | rfl | rfl <;> exact WPc.noConfusion h
    | sig4Prod _ i h h4 hp =>
      rcases fin4_cases i with rfl | rfl | rfl | rfl <;> exact WPc.noConfusion h
    | sig4None _ i h h4 hw hp =>
      rcases fin4_cases i with rfl | rfl | rfl | rfl <;> exact WPc.noConfusion h
    | wake0 _ i h h0 =>
      rcases fin4_cases i with rfl | rfl | rfl | rfl <;> exact WPc.noConfusion h
    | wakePos _ i h h0 =>
      rcases fin4_cases i with rfl | rfl | rfl | rfl <;> exact WPc.noConfusion h
    | awaitYes _ h h4 => exact PPc.noConfusion h
    | awaitNo _ h h4 => exact PPc.noConfusion h
    | recheckYes _ h h4 => exact PPc.noConfusion h
    | recheckNo _ h h4 => exact PPc.noConfusion h
    | pGen _ h => exact PPc.noConfusion h
    | pInstall _ h => exact PPc.noConfusion h

/-- C2: refuted as stated (the spec explicitly requires an assert at
startup, so this is a code bug).  `main` performs no configuration check:
with a participant count of 3 against 4 spawned workers, or with initial
size 0, startup still succeeds and spawns all five threads; the hard-coded
source configuration happens to satisfy the invariant. -/
theorem startup_performs_no_check :
    configOK ⟨10, 4, 3⟩ = false ∧
      mainStartup ⟨10, 4, 3⟩ = Except.ok (onesMat 10, twosMat 10, 5) ∧
    configOK ⟨0, 4, 4⟩ = false ∧
      mainStartup ⟨0, 4, 4⟩ = Except.ok (onesMat 0, twosMat 0, 5) ∧
    configOK sourceConfig = true := by
  refine ⟨rfl, rfl, rfl, rfl, rfl⟩

/-- C3: in every reachable state in which the producer is regenerating
(doubling the size or installing the new payload), the counter is 4 and
every worker is blocked in the barrier — none is reading or computing on
the old data, so the round-R+1 write happens only after all four round-R
signals. -/
theorem producer_writes_only_after_all_signal :
    ∀ s, Reachable s → (s.ppc = PPc.gen ∨ s.ppc = PPc.install) →
      s.fin = 4 ∧ ∀ i, (s.wpc i = WPc.waiting ∨ s.wpc i = WPc.recheck) := by
  intro s hr hp
  have hi := reachable_inv hr
  have h4 := hi.genAll hp
  exact ⟨h4, hi.blockedOf4 h4⟩

theorem producer_writes_only_after_all_signal_witness :
    (sGen 0).fin = 4 ∧
      ∀ i, ((sGen 0).wpc i = WPc.waiting ∨ (sGen 0).wpc i = WPc.recheck) :=
  producer_writes_only_after_all_signal (sGen 0)
    (reach_sGen 0 (reach_roundStart 0)) (Or.inl rfl)

/-- C4: counterexample to the claim as stated: in the reachable
mid-generation state (after `currentN *= 2` on line 91, before the install
of lines 110-111) `currentN` is 20 while `globalA` and `globalB` are still
10 × 10, so the dimensions do not equal the size parameter. -/
theorem dims_invariant_fails_midgen :
    Reachable (sMid 0) ∧ (sMid 0).n = 20 ∧
      squareDimB (sMid 0).A (sMid 0).n = false ∧
      squareDimB (sMid 0).A 10 = true ∧ squareDimB (sMid 0).B 10 = true := by
  exact ⟨reach_sMid 0 (reach_roundStart 0), by decide, by decide, by decide, by decide⟩

/-- C4 (amended): in every reachable state outside the mid-generation
window (producer not between the size doubling and the install), `globalA`
and `globalB` are square with dimension exactly `currentN`; the window
itself is invisible to workers, which are all blocked while it is open. -/
theorem dims_match_outside_install :
    ∀ s, Reachable s → s.ppc ≠ PPc.install →
      SquareDim s.A s.n ∧ SquareDim s.B s.n := by
  intro s hr hp
  have hi := reachable_inv hr
  rw [hi.matA, hi.matB, hi.sizeRound hp]
  exact ⟨squareDim_onesMat _, squareDim_twosMat _⟩

theorem dims_match_outside_install_witness :
    SquareDim initState.A initState.n ∧ SquareDim initState.B initState.n :=
  dims_match_outside_install initState Reachable.init (by decide)

/-- C5: in every reachable state `finishedCount` lies in [0, 4], and once
it equals 4 the only transition that changes it is the release itself: the
single lock-protected install step, which in the same atomic transition
installs the new matrices, resets the counter to 0, advances the round and
wakes every blocked worker. -/
theorem finishedCount_bounds_and_atomic_reset :
    ∀ s, Reachable s → s.fin ≤ 4 ∧
      ∀ b t, Step b s t → s.fin = 4 → t.fin ≠ s.fin →
        t.fin = 0 ∧ t.ppc = PPc.await ∧ t.A = onesMat s.n ∧ t.B = twosMat s.n ∧
          t.rounds = s.rounds + 1 ∧
          ∀ i, s.wpc i = WPc.waiting → t.wpc i = WPc.recheck := by
  intro s hr
  have hi := reachable_inv hr
  refine ⟨hi.finLe, ?_⟩
  intro b t st h4 hne
  cases st with
  | readN _ i h => exact absurd rfl hne
  | mulDone _ i nl h => exact absurd rfl hne
  | sigNo4 _ i h hx =>
    rcases hi.blockedOf4 h4 i with hw | hw <;> rw [h] at hw <;> exact WPc.noConfusion hw
  | sig4Worker _ i j0 h hx hj0 =>
    rcases hi.blockedOf4 h4 i with hw | hw <;> rw [h] at hw <;> exact WPc.noConfusion hw
  | sig4Prod _ i h hx hp =>
    rcases hi.blockedOf4 h4 i with hw | hw <;> rw [h] at hw <;> exact WPc.noConfusion hw
  | sig4None _ i h hx hw2 hp =>
    rcases hi.blockedOf4 h4 i with hw | hw <;> rw [h] at hw <;> exact WPc.noConfusion hw
  | wake0 _ i h h0 => exact absurd rfl hne
  | wakePos _ i h h0 => exact absurd rfl hne
  | wSpurious _ i h => exact absurd rfl hne
  | awaitYes _ h hx => exact absurd rfl hne
  | awaitNo _ h hx => exact absurd rfl hne
  | recheckYes _ h hx => exact absurd rfl hne
  | recheckNo _ h hx => exact absurd rfl hne
  | pSpurious _ h => exact absurd rfl hne
  | pGen _ h => exact absurd rfl hne
  | pInstall _ h =>
    refine ⟨rfl, rfl, rfl, rfl, rfl, ?_⟩
    intro i hwi
    dsimp only
    rw [if_pos hwi]

theorem finishedCount_bounds_and_atomic_reset_witness :
    ({ sMid 0 with
       A := onesMat (sMid 0).n, B := twosMat (sMid 0).n, fin := 0,
       wpc := fun j => if (sMid 0).wpc j = WPc.waiting then WPc.recheck
                       else (sMid 0).wpc j,
       ppc := PPc.await,
       done := quad false false false false,
       rounds := (sMid 0).rounds + 1 } : ProgState).fin = 0 :=
  ((finishedCount_bounds_and_atomic_reset (sMid 0)
      (reach_sMid 0 (reach_roundStart 0))).2 false _
    (Step.pInstall (sMid 0) rfl) (by decide) (by decide)).1

/-- C6: the shared size after `k` releases is exactly `10 * 2 ^ k`; while
the producer is regenerating, the only change to the size is the doubling
step, and the install step replaces both payloads wholesale with freshly
built `newSize` × `newSize` fills (all ones and all twos) that do not
depend on the old matrices; the size sequence is unbounded. -/
theorem size_doubling_unbounded :
    (∀ s, Reachable s → s.ppc ≠ PPc.install → s.n = 10 * 2 ^ s.rounds) ∧
    (∀ b s t, Reachable s → Step b s t → s.ppc = PPc.gen →
      (t.ppc = PPc.gen ∧ t.n = s.n ∧ t.A = s.A ∧ t.B = s.B) ∨
      (t.ppc = PPc.install ∧ t.n = 2 * s.n ∧ t.A = s.A ∧ t.B = s.B)) ∧
    (∀ b s t, Reachable s → Step b s t → s.ppc = PPc.install →
      (t.ppc = PPc.install ∧ t.n = s.n ∧ t.A = s.A ∧ t.B = s.B) ∨
      (t.ppc = PPc.await ∧ t.n = s.n ∧ t.A = onesMat s.n ∧ t.B = twosMat s.n ∧
        t.fin = 0 ∧ t.rounds = s.rounds + 1)) ∧
    (∀ M : Nat, ∃ k : Nat, M < 10 * 2 ^ k) := by
  refine ⟨?_, ?_, ?_, ?_⟩
  · intro s hr hp
    exact (reachable_inv hr).sizeRound hp
  · intro b s t hr st hp
    have hi := reachable_inv hr
    have h4 := hi.genAll (Or.inl hp)
    cases st with
    | readN _ i h =>
      rcases hi.blockedOf4 h4 i with hw | hw <;> rw [h] at hw <;> exact WPc.noConfusion hw
    | mulDone _ i nl h =>
      rcases hi.blockedOf4 h4 i with hw | hw <;> rw [h] at hw <;> exact WPc.noConfusion hw
    | sigNo4 _ i h hx =>
      rcases hi.blockedOf4 h4 i with hw | hw <;> rw [h] at hw <;> exact WPc.noConfusion hw
    | sig4Worker _ i j0 h hx hj0 =>
      rcases hi.blockedOf4 h4 i with hw | hw <;> rw [h] at hw <;> exact WPc.noConfusion hw
    | sig4Prod _ i h hx hp2 =>
      rcases hi.blockedOf4 h4 i with hw | hw <;> rw [h] at hw <;> exact WPc.noConfusion hw
    | sig4None _ i h hx hw2 hp2 =>
      rcases hi.blockedOf4 h4 i with hw | hw <;> rw [h] at hw <;> exact WPc.noConfusion hw
    | wake0 _ i h h0 => omega
    | wakePos _ i h h0 => exact Or.inl ⟨hp, rfl, rfl, rfl⟩
    | wSpurious _ i h => exact Or.inl ⟨hp, rfl, rfl, rfl⟩
    | awaitYes _ h hx => rw [hp] at h; exact PPc.noConfusion h
    | awaitNo _ h hx => rw [hp] at h; exact PPc.noConfusion h
    | recheckYes _ h hx => rw [hp] at h; exact PPc.noConfusion h
    | recheckNo _ h hx => rw [hp] at h; exact PPc.noConfusion h
    | pSpurious _ h => rw [hp] at h; exact PPc.noConfusion h
    | pGen _ h => exact Or.inr ⟨rfl, rfl, rfl, rfl⟩
    | pInstall _ h => rw [hp] at h; exact PPc.noConfusion h
  · intro b s t hr st hp
    have hi := reachable_inv hr
    have h4 := hi.genAll (Or.inr hp)
    cases st with
    | readN _ i h =>
      rcases hi.blockedOf4 h4 i with hw | hw <;> rw [h] at hw <;> exact WPc.noConfusion hw
    | mulDone _ i nl h =>
      rcases hi.blockedOf4 h4 i with hw | hw <;> rw [h] at hw <;> exact WPc.noConfusion hw
    | sigNo4 _ i h hx =>
      rcases hi.blockedOf4 h4 i with hw | hw <;> rw [h] at hw <;> exact WPc.noConfusion hw
    | sig4Worker _ i j0 h hx hj0 =>
      rcases hi.blockedOf4 h4 i with hw | hw <;> rw [h] at hw <;> exact WPc.noConfusion hw
    | sig4Prod _ i h hx hp2 =>
      rcases hi.blockedOf4 h4 i with hw | hw <;> rw [h] at hw <;> exact WPc.noConfusion hw
    | sig4None _ i h hx hw2 hp2 =>
      rcases hi.blockedOf4 h4 i with hw | hw <;> rw [h] at hw <;> exact WPc.noConfusion hw
    | wake0 _ i h h0 => omega
    | wakePos _ i h h0 => exact Or.inl ⟨hp, rfl, rfl, rfl⟩
    | wSpurious _ i h => exact Or.inl ⟨hp, rfl, rfl, rfl⟩
    | awaitYes _ h hx => rw [hp] at h; exact PPc.noConfusion h
    | awaitNo _ h hx => rw [hp] at h; exact PPc.noConfusion h
    | recheckYes _ h hx => rw [hp] at h; exact PPc.noConfusion h
    | recheckNo _ h hx => rw [hp] at h; exact PPc.noConfusion h
    | pSpurious _ h => rw [hp] at h; exact PPc.noConfusion h
    | pGen _ h => rw [hp] at h; exact PPc.noConfusion h
    | pInstall _ h => exact Or.inr ⟨rfl, rfl, rfl, rfl, rfl, rfl⟩
  · intro M
    exact ⟨M, lt_of_lt_of_le (Nat.lt_two_pow M) (Nat.le_mul_of_pos_left _ (by norm_num))⟩

theorem size_doubling_unbounded_witness : initState.n = 10 * 2 ^ initState.rounds :=
  size_doubling_unbounded.1 initState Reachable.init (by decide)

/-- C7: in every reachable state, a worker computing on snapshot size `nl`
sees the shared slot unchanged since its first read — `currentN` still
equals `nl` and the matrices are exactly the `nl` × `nl` fills — so a
repeated read within the round returns identical data, and any two workers
computing in the same state observe the same contents. -/
theorem same_data_within_round :
    ∀ s, Reachable s → ∀ i nl, s.wpc i = WPc.mul nl →
      nl = s.n ∧ s.A = onesMat nl ∧ s.B = twosMat nl ∧
        SquareDim s.A nl ∧ SquareDim s.B nl ∧
        ∀ j nl2, s.wpc j = WPc.mul nl2 → nl2 = nl := by
  intro s hr i nl h
  obtain ⟨hnl, hA, hB⟩ := mul_snapshot_props hr h
  subst hnl
  refine ⟨rfl, hA, hB, ?_, ?_, ?_⟩
  · rw [hA]; exact squareDim_onesMat _
  · rw [hB]; exact squareDim_twosMat _
  · intro j nl2 hj
    exact (mul_snapshot_props hr hj).1

theorem same_data_within_round_witness :
    10 = (sW0mul 0).n ∧ (sW0mul 0).A = onesMat 10 ∧ (sW0mul 0).B = twosMat 10 ∧
      SquareDim (sW0mul 0).A 10 ∧ SquareDim (sW0mul 0).B 10 ∧
      ∀ j nl2, (sW0mul 0).wpc j = WPc.mul nl2 → nl2 = 10 :=
  same_data_within_round (sW0mul 0) (reach_sW0mul 0 (reach_roundStart 0))
    0 10 (by decide)

/-- C8: the loops have no terminal state: for every number `k` of completed
rounds there is a reachable state with exactly `k` releases behind it and
every thread back at the top of its loop, so there is always a next round
and the process never exits. -/
theorem runs_forever_unbounded_rounds :
    ∀ k : Nat, ∃ s : ProgState, Reachable s ∧ s.rounds = k ∧ s.fin = 0 ∧
      s.ppc = PPc.await ∧ ∀ i, s.wpc i = WPc.readN := by
  intro k
  refine ⟨roundStart k, reach_roundStart k, rfl, rfl, rfl, ?_⟩
  intro i
  rcases fin4_cases i with rfl | rfl | rfl | rfl <;> rfl

/-- C9: under the dimension preconditions `multiplyMatrices` writes the
standard product entry (the sum over `k < N` of `A[i][k] * B[k][j]`) into
every cell `i, j < N`, and on the generator's fill (A all ones, B all
twos) every computed entry equals `2 * N`. -/
theorem multiplyMatrices_standard_product :
    (∀ A B C N, HasDims A N → HasDims B N → HasDims C N →
      ∃ D, multiplyMatrices A B C N = some D ∧
        ∀ i, i < N → ∀ j, j < N → matGet D i j = some (dotSpec A B i j N)) ∧
    (∀ n : Nat, ∃ D,
      multiplyMatrices (onesMat n) (twosMat n) (zeroMat n) n = some D ∧
        ∀ i, i < n → ∀ j, j < n → matGet D i j = some (2 * (n : Int))) := by
  constructor
  · intro A B C N hA hB hC
    exact multiplyMatrices_spec hA hB hC
  · intro n
    obtain ⟨D, hD, hdot⟩ := multiplyMatrices_spec (hasDims_onesMat n)
      (hasDims_twosMat n) (hasDims_zeroMat n)
    refine ⟨D, hD, ?_⟩
    intro i hi j hj
    rw [hdot i hi j hj, dotSpec_ones_twos hi hj]

theorem multiplyMatrices_standard_product_witness :
    ∃ D, multiplyMatrices (onesMat 2) (twosMat 2) (zeroMat 2) 2 = some D ∧
      ∀ i, i < 2 → ∀ j, j < 2 →
        matGet D i j = some (dotSpec (onesMat 2) (twosMat 2) i j 2) :=
  multiplyMatrices_standard_product.1 (onesMat 2) (twosMat 2) (zeroMat 2) 2
    (by decide) (by decide) (by decide)

/-- C10: under the precondition that A, B and C all have at least N rows of
at least N columns, every subscript of `multiplyMatrices` is in bounds (the
out-of-bounds branch never fires); and in every reachable state a computing
worker's actual call is in bounds: its freshly allocated `N_local` ×
`N_local` buffer together with the shared matrices, which still have
dimension `N_local` at call time, satisfy the precondition. -/
theorem multiply_call_in_bounds :
    (∀ A B C N, HasDims A N → HasDims B N → HasDims C N →
      (multiplyMatrices A B C N).isSome = true) ∧
    (∀ s, Reachable s → ∀ i nl, s.wpc i = WPc.mul nl →
      (multiplyMatrices s.A s.B (zeroMat nl) nl).isSome = true) := by
  have hbase : ∀ A B C N, HasDims A N → HasDims B N → HasDims C N →
      (multiplyMatrices A B C N).isSome = true := by
    intro A B C N hA hB hC
    obtain ⟨D, hD, _⟩ := multiplyMatrices_spec hA hB hC
    rw [hD]
    rfl
  refine ⟨hbase, ?_⟩
  intro s hr i nl h
  obtain ⟨hnl, hA, hB⟩ := mul_snapshot_props hr h
  subst hnl
  rw [hA, hB]
  exact hbase _ _ _ _ (hasDims_onesMat _) (hasDims_twosMat _) (hasDims_zeroMat _)

theorem multiply_call_in_bounds_witness :
    (multiplyMatrices (sW0mul 0).A (sW0mul 0).B (zeroMat 10) 10).isSome = true :=
  multiply_call_in_bounds.2 (sW0mul 0) (reach_sW0mul 0 (reach_roundStart 0))
    0 10 (by decide)

end ThreadCpp
